import Mathlib

/-!
Shallow embedding of `dumbcoin.py` (class `Block` and class `Blockchain`).

Modelling conventions:
* `sha256(s.encode()).hexdigest()` is modelled by an abstract digest
  function `H : String → String`; every operation of the source that
  hashes is parameterised by `H`.  The only facts about the real digest
  used in theorems appear as explicit hypotheses (e.g. that a hex digest
  has at least 4 characters — a sha256 hex digest has 64).
* `time.time()` results are supplied as explicit `Nat` arguments
  (timestamps are only formatted and compared, never computed with).
* Python `int` amounts are `Int`; nonce counters are `Nat`.
* Python exceptions (`BlockchainException`, `IndexError`) are modelled by
  `Except String`, carrying the exact message the source raises; methods
  that mutate `self` return the post-call state together with the result,
  so that the state observed after an exception is explicit.
* The unbounded `while` loop of `get_proof` is modelled with fuel
  (`none` = the loop has not terminated within the given fuel).
* Python `dict` (ledger) is an association list with first-occurrence
  lookup and in-place update, new keys appended at the end
  (insertion-order semantics of CPython dicts).
-/

namespace Dumbcoin

/-- Model of a transaction dict
`{"sender": ..., "recipient": ..., "amount": ..., "timestamp": ...}`. -/
structure Transaction where
  sender : Option String
  recipient : String
  amount : Int
  timestamp : Nat
deriving DecidableEq, Repr

/-- Model of class `Block`: `index`, `timestamp`, `transactions`, `proof`,
`previous_block`, and the `hash` field assigned in `__init__`. -/
inductive Block where
  | mk (index : Nat) (timestamp : Nat) (transactions : List Transaction)
       (proof : Nat) (previous_block : Option Block) (hash : String) : Block
deriving Repr

def Block.index : Block → Nat
  | .mk i _ _ _ _ _ => i

def Block.timestamp : Block → Nat
  | .mk _ t _ _ _ _ => t

def Block.transactions : Block → List Transaction
  | .mk _ _ txs _ _ _ => txs

def Block.proof : Block → Nat
  | .mk _ _ _ p _ _ => p

def Block.previous_block : Block → Option Block
  | .mk _ _ _ _ prev _ => prev

def Block.hash : Block → String
  | .mk _ _ _ _ _ h => h

/-- Serialization of one transaction as produced by `json.dumps` with the
default separators (insertion order of the dict literal in the source). -/
def dumpsTransaction (t : Transaction) : String :=
  "\x7b\"sender\": " ++
    (match t.sender with
     | none => "null"
     | some s => "\"" ++ s ++ "\"") ++
  ", \"recipient\": \"" ++ t.recipient ++
  "\", \"amount\": " ++ toString t.amount ++
  ", \"timestamp\": " ++ toString t.timestamp ++ "\x7d"

/-- Serialization of a transaction list as produced by `json.dumps`. -/
def dumps (txs : List Transaction) : String :=
  "[" ++ String.intercalate ", " (txs.map dumpsTransaction) ++ "]"

/-- The string `"{}{}{}".format(index, timestamp, json.dumps(transactions))`
used by `Block.get_hash`, `create_genesis_block` and `mine_block`. -/
def block_string (index timestamp : Nat) (transactions : List Transaction) : String :=
  toString index ++ toString timestamp ++ dumps transactions

/-- Model of `Block.get_hash`: digest of the block-contents string. -/
def Block.get_hash (H : String → String) (b : Block) : String :=
  H (block_string b.index b.timestamp b.transactions)

/-- Model of `Block.__init__`: stores the five arguments and assigns
`self.hash = self.get_hash()`. -/
def Block.make (H : String → String) (index timestamp : Nat)
    (transactions : List Transaction) (proof : Nat)
    (previous_block : Option Block) : Block :=
  .mk index timestamp transactions proof previous_block
    (H (block_string index timestamp transactions))

/-- The string `"0" * complexity_level`. -/
def zeros (complexity_level : Nat) : String :=
  String.mk (List.replicate complexity_level '0')

/-- Model of `Blockchain.verify_block`: hashes `"{}{}".format(block.hash,
block.proof)` and compares the first FOUR characters (`[:4]` in the source)
with `"0" * complexity_level`. -/
def verify_block (H : String → String) (complexity_level : Nat) (b : Block) : Bool :=
  (H (b.hash ++ toString b.proof)).take 4 == zeros complexity_level

/-- Model of the loop body condition of `Blockchain.get_proof`:
`sha256("{}{}".format(block_hash, proof)).hexdigest()[:4] == "0" * complexity_level`. -/
def proof_found (H : String → String) (complexity_level : Nat)
    (block_hash : String) (proof : Nat) : Bool :=
  (H (block_hash ++ toString proof)).take 4 == zeros complexity_level

/-- Fueled model of `Blockchain.get_proof`: starting from counter `proof`,
try successive nonces; `none` means the `while` loop did not terminate
within `fuel` iterations. -/
def get_proofFuel (H : String → String) (complexity_level : Nat)
    (block_hash : String) : Nat → Nat → Option Nat
  | 0, _ => none
  | fuel + 1, proof =>
    if proof_found H complexity_level block_hash proof then some proof
    else get_proofFuel H complexity_level block_hash fuel (proof + 1)

/-- Model of `Blockchain.verify_blockchain`'s inner `recursive_verify`. -/
def recursive_verify (H : String → String) (complexity_level : Nat) : Block → Bool
  | .mk i t txs p prev h =>
    if verify_block H complexity_level (.mk i t txs p prev h) then
      match prev with
      | some previous => recursive_verify H complexity_level previous
      | none => true
    else false

/-- The blocks reachable from a block via `previous_block` links
(the block itself first, genesis last). -/
def blockList : Block → List Block
  | .mk i t txs p prev h =>
    .mk i t txs p prev h ::
      (match prev with
       | some previous => blockList previous
       | none => [])

/-- Model of the collection phase of `Blockchain.get_settled_transactions`:
transactions of the last block first, then recursively those of the
previous blocks, each block's list in order. -/
def collect_transactions : Block → List Transaction
  | .mk _ _ txs _ prev _ =>
    txs ++
      (match prev with
       | some previous => collect_transactions previous
       | none => [])

/-- Comparison key of `transaction_list.sort(key=lambda x: x['timestamp'])`. -/
def ts_le (a b : Transaction) : Prop :=
  a.timestamp ≤ b.timestamp

instance : DecidableRel ts_le := fun a b => Nat.decLe a.timestamp b.timestamp

instance : IsTotal Transaction ts_le :=
  ⟨fun a b => Nat.le_total a.timestamp b.timestamp⟩

instance : IsTrans Transaction ts_le :=
  ⟨fun _ _ _ h h' => Nat.le_trans h h'⟩

/-- Ledger dict mapping account id to balance, as an insertion-ordered
association list. -/
abbrev Ledger := List (String × Int)

/-- Membership test `key in ledger.keys()`. -/
def dictContains : Ledger → String → Bool
  | [], _ => false
  | (k, _) :: rest, key => if k = key then true else dictContains rest key

/-- Lookup `ledger[key]` (first occurrence; the source only reads keys it
has already checked for membership, so the default 0 is never observed). -/
def dictGet : Ledger → String → Int
  | [], _ => 0
  | (k, v) :: rest, key => if k = key then v else dictGet rest key

/-- Assignment `ledger[key] = value`: overwrite the existing entry, or
append a new one at the end (CPython dict insertion order). -/
def dictSet : Ledger → String → Int → Ledger
  | [], key, value => [(key, value)]
  | (k, v) :: rest, key, value =>
    if k = key then (key, value) :: rest else (k, v) :: dictSet rest key value

/-- The sum `sum(ledger.values())`. -/
def sumValues (ledger : Ledger) : Int :=
  (ledger.map Prod.snd).sum

/-- Printable form of a sender as interpolated by `"{}".format(sender)`:
`None` for the missing sender. -/
def senderText : Option String → String
  | none => "None"
  | some s => s

/-- Model of `Blockchain.add_transaction_to_ledger` (a pure function of its
two arguments; exceptions become `Except.error` with the raised message).
The sender-membership test happens first: a `None` sender is never a dict
key, so it always fails that test. -/
def add_transaction_to_ledger (transaction : Transaction) (ledger : Ledger) :
    Except String Ledger :=
  match transaction.sender with
  | none =>
    .error ("Sender " ++ senderText none ++
      " made a transaction before appearing in the ledger")
  | some sender =>
    if ¬ dictContains ledger sender then
      .error ("Sender " ++ sender ++
        " made a transaction before appearing in the ledger")
    else if dictGet ledger sender - transaction.amount < 0 then
      .error ("Sender " ++ sender ++ " attempted to overdraw their coins")
    else
      let ledger1 :=
        if ¬ dictContains ledger transaction.recipient then
          dictSet ledger transaction.recipient 0
        else ledger
      let ledger2 := dictSet ledger1 sender (dictGet ledger1 sender - transaction.amount)
      let ledger3 := dictSet ledger2 transaction.recipient
        (dictGet ledger2 transaction.recipient + transaction.amount)
      .ok ledger3

/-- The `for transaction in past_transactions[1:]` loop of `create_ledger`,
with exception propagation. -/
def ledger_fold : List Transaction → Ledger → Except String Ledger
  | [], ledger => .ok ledger
  | t :: rest, ledger =>
    match add_transaction_to_ledger t ledger with
    | .error e => .error e
    | .ok ledger' => ledger_fold rest ledger'

/-- Model of `Blockchain.create_ledger` (pure in its argument).  The
`past_transactions[0]` subscript on an empty list raises `IndexError`.
The genesis check of the source is
`if genesis_block['recipient'] is not 'genesis' and genesis_block['sender'] is not None`;
identity comparison against the interned literal is modelled as value
comparison, and the `and` connective is kept exactly as written. -/
def create_ledger (past_transactions : List Transaction) : Except String Ledger :=
  match past_transactions with
  | [] => .error "list index out of range"
  | genesis_block :: rest =>
    if genesis_block.recipient ≠ "genesis" ∧ genesis_block.sender ≠ none then
      .error "Valid genesis block not found"
    else
      ledger_fold rest (dictSet [] genesis_block.recipient genesis_block.amount)

/-- Model of `Blockchain.validate_transaction`: the `try` covers only the
`add_transaction_to_ledger` call, so an exception inside `create_ledger`
propagates (outer `.error`), while a ledger-rule failure yields `ok false`. -/
def validate_transaction (new_transaction : Transaction)
    (past_transactions : List Transaction) : Except String Bool :=
  match create_ledger past_transactions with
  | .error e => .error e
  | .ok ledger =>
    match add_transaction_to_ledger new_transaction ledger with
    | .error _ => .ok false
    | .ok _ => .ok true

/-- Model of class `Blockchain`'s instance state: the pending transaction
queue `self.transactions`, `self.seed_amount`, `self.complexity_level`, and
`self.last_block`. -/
structure Blockchain where
  transactions : List Transaction
  seed_amount : Int
  complexity_level : Nat
  last_block : Block
deriving Repr

/-- Model of `Blockchain.get_settled_transactions`: collect every
transaction reachable from `self.last_block`, then sort the whole list by
timestamp ascending.  `list.sort(key=...)` is a stable ascending sort, and
a stable ascending sort of a list is unique, so the stable
`List.insertionSort` produces exactly the list the source produces. -/
def Blockchain.get_settled_transactions (c : Blockchain) : List Transaction :=
  (collect_transactions c.last_block).insertionSort ts_le

/-- Model of `Blockchain.verify_blockchain`. -/
def Blockchain.verify_blockchain (H : String → String) (c : Blockchain) : Bool :=
  recursive_verify H c.complexity_level c.last_block

/-- Model of `Blockchain.add_transaction`.  `timestamp` is the effective
timestamp (the caller's truthy argument, or the `time.time()` value taken
when the argument is absent or falsy).  The returned pair is the post-call
state together with the outcome; every `raise` happens before the
`self.transactions.append`, so the state is unchanged on error. -/
def Blockchain.add_transaction (c : Blockchain)
    (sender : Option String) (recipient : String) (amount : Int)
    (timestamp : Nat) (validate : Bool) : Blockchain × Except String Unit :=
  if validate then
    match validate_transaction ⟨sender, recipient, amount, timestamp⟩
        c.get_settled_transactions with
    | .error e => (c, .error e)
    | .ok false => (c, .error "Transaction failed to validate. Aborting")
    | .ok true =>
      (⟨c.transactions ++ [⟨sender, recipient, amount, timestamp⟩],
        c.seed_amount, c.complexity_level, c.last_block⟩, .ok ())
  else
    (⟨c.transactions ++ [⟨sender, recipient, amount, timestamp⟩],
      c.seed_amount, c.complexity_level, c.last_block⟩, .ok ())

/-- Model of `Blockchain.mine_block` with explicit mining timestamp and
fuel for the proof search (`none` = the search has not terminated). -/
def Blockchain.mine_block (H : String → String) (c : Blockchain)
    (timestamp fuel : Nat) : Option Block :=
  match get_proofFuel H c.complexity_level
      (H (block_string (c.last_block.index + 1) timestamp c.transactions))
      fuel 0 with
  | none => none
  | some proof =>
    some (Block.make H (c.last_block.index + 1) timestamp c.transactions proof
      (some c.last_block))

/-- Model of `Blockchain.add_block`.  The outer `none` means the proof
search inside `mine_block` has not terminated (no state is ever observed);
otherwise the post-call state and the outcome are returned.  Both `raise`
statements occur before `self.transactions`/`self.last_block` are written. -/
def Blockchain.add_block (H : String → String) (c : Blockchain)
    (timestamp fuel : Nat) : Option (Blockchain × Except String Unit) :=
  if c.transactions = [] then
    some (c, .error "No transactions to add to block")
  else
    match c.mine_block H timestamp fuel with
    | none => none
    | some new_block =>
      if ¬ verify_block H c.complexity_level new_block then
        some (c, .error "Block failed verification. Aborting")
      else
        some (⟨[], c.seed_amount, c.complexity_level, new_block⟩, .ok ())

/-- Model of `Blockchain.create_genesis_block` with explicit genesis
timestamp and proof-search fuel. -/
def create_genesis_block (H : String → String) (seed_amount : Int)
    (complexity_level : Nat) (timestamp fuel : Nat) : Option Block :=
  match get_proofFuel H complexity_level
      (H (block_string 0 timestamp [⟨none, "genesis", seed_amount, timestamp⟩]))
      fuel 0 with
  | none => none
  | some proof =>
    some (Block.make H 0 timestamp [⟨none, "genesis", seed_amount, timestamp⟩]
      proof none)

/-- Model of `Blockchain.__init__`: empty pending queue, the two
parameters, and the mined genesis block. -/
def Blockchain.create (H : String → String) (seed_amount : Int)
    (complexity_level : Nat) (timestamp fuel : Nat) : Option Blockchain :=
  match create_genesis_block H seed_amount complexity_level timestamp fuel with
  | none => none
  | some genesis_block =>
    some ⟨[], seed_amount, complexity_level, genesis_block⟩

/-- Chain states reachable from `Blockchain(...)` by successful
`add_transaction` (with validation, the default) and successful
`add_block` calls. -/
inductive Reachable (H : String → String) : Blockchain → Prop where
  | create : ∀ seed_amount complexity_level timestamp fuel c,
      Blockchain.create H seed_amount complexity_level timestamp fuel = some c →
      Reachable H c
  | stage : ∀ c sender recipient amount timestamp c',
      Reachable H c →
      c.add_transaction sender recipient amount timestamp true = (c', .ok ()) →
      Reachable H c'
  | commit : ∀ c timestamp fuel c',
      Reachable H c →
      c.add_block H timestamp fuel = some (c', .ok ()) →
      Reachable H c'

/-! The structural chain invariant maintained by every reachable state. -/

/-- Shape invariant of a block history: the terminal block is a genesis
block (index 0, no predecessor, a single seed credit of `seed` to
`"genesis"`), and every other block increments its predecessor's index and
carries only transactions with a present sender. -/
inductive GoodChain (seed : Int) : Block → Prop where
  | genesis : ∀ ts ts' pf h,
      GoodChain seed (.mk 0 ts [⟨none, "genesis", seed, ts'⟩] pf none h)
  | step : ∀ p index ts txs pf h,
      GoodChain seed p → index = p.index + 1 →
      (∀ t ∈ txs, t.sender ≠ none) →
      GoodChain seed (.mk index ts txs pf (some p) h)

/-- Invariant of a reachable `Blockchain` state: the block history is
well-shaped and every pending transaction has a present sender. -/
def StateInv (c : Blockchain) : Prop :=
  GoodChain c.seed_amount c.last_block ∧ ∀ t ∈ c.transactions, t.sender ≠ none

/-! Concrete demonstration values used to exhibit satisfiable hypotheses.
`demoH` stands in for the digest function: it is constantly `"0000"`, so
every candidate nonce immediately passes the `[:4] == "0000"` check at
complexity level 4 and nonce 0 is accepted. -/

def demoH : String → String := fun _ => "0000"

def demoGenesisTx : Transaction := ⟨none, "genesis", 1000, 1⟩

def demoGenesisBlock : Block := .mk 0 1 [demoGenesisTx] 0 none "0000"

/-- The chain produced by `Blockchain(1000, 4)` under `demoH` with genesis
timestamp 1. -/
def demoChain : Blockchain := ⟨[], 1000, 4, demoGenesisBlock⟩

def demoAdam : Transaction := ⟨some "genesis", "adam", 800, 2⟩

def demoEve : Transaction := ⟨some "genesis", "eve", 800, 3⟩

def demoChainStaged1 : Blockchain := ⟨[demoAdam], 1000, 4, demoGenesisBlock⟩

def demoChainStaged2 : Blockchain := ⟨[demoAdam, demoEve], 1000, 4, demoGenesisBlock⟩

/-- Result of committing the single staged `demoAdam` transaction. -/
def demoChainMined1 : Blockchain :=
  ⟨[], 1000, 4, .mk 1 4 [demoAdam] 0 (some demoGenesisBlock) "0000"⟩

/-- Result of committing both staged transactions of `demoChainStaged2`:
each was individually validated against the settled ledger only, yet
together they overdraw the `"genesis"` account. -/
def demoChainDouble : Blockchain :=
  ⟨[], 1000, 4, .mk 1 4 [demoAdam, demoEve] 0 (some demoGenesisBlock) "0000"⟩

/-! Helper lemmas about the ledger dictionary. -/

theorem dictContains_dictSet (ledger : Ledger) (k k' : String) (v : Int) :
    dictContains (dictSet ledger k v) k' = true ↔
      (dictContains ledger k' = true ∨ k' = k) := by
  induction ledger with
  | nil =>
    by_cases h : k = k'
    · simp [dictSet, dictContains, h]
    · simp [dictSet, dictContains, h, Ne.symm h]
  | cons head rest ih =>
    obtain ⟨k₀, v₀⟩ := head
    by_cases h : k₀ = k
    · subst h
      by_cases h' : k₀ = k'
      · simp [dictSet, dictContains, h']
      · simp [dictSet, dictContains, h', Ne.symm h']
    · by_cases h' : k₀ = k'
      · have hne : ¬ k' = k := fun hh => h (h'.trans hh)
        simp only [dictSet, dictContains, h', if_neg hne, if_pos rfl]
        simp [dictContains, h']
      · simp [dictSet, dictContains, h, h', ih]

theorem dictGet_dictSet_self (ledger : Ledger) (k : String) (v : Int) :
    dictGet (dictSet ledger k v) k = v := by
  induction ledger with
  | nil => simp [dictSet, dictGet]
  | cons head rest ih =>
    obtain ⟨k', v'⟩ := head
    by_cases h : k' = k
    · simp [dictSet, dictGet, h]
    · simp [dictSet, dictGet, h, ih]

theorem dictGet_dictSet_ne (ledger : Ledger) (k k' : String) (v : Int)
    (h : k' ≠ k) : dictGet (dictSet ledger k v) k' = dictGet ledger k' := by
  induction ledger with
  | nil => simp [dictSet, dictGet, Ne.symm h]
  | cons head rest ih =>
    obtain ⟨k₀, v₀⟩ := head
    by_cases h₀ : k₀ = k
    · subst h₀
      simp [dictSet, dictGet, Ne.symm h]
    · by_cases h₁ : k₀ = k'
      · simp [dictSet, dictGet, h₀, h₁, h]
      · simp [dictSet, dictGet, h₀, h₁, ih]

theorem sumValues_cons (p : String × Int) (rest : Ledger) :
    sumValues (p :: rest) = p.2 + sumValues rest := by
  simp [sumValues]

theorem sumValues_dictSet_mem (ledger : Ledger) (k : String) (v : Int)
    (h : dictContains ledger k = true) :
    sumValues (dictSet ledger k v) = sumValues ledger - dictGet ledger k + v := by
  induction ledger with
  | nil => simp [dictContains] at h
  | cons head rest ih =>
    obtain ⟨k', v'⟩ := head
    by_cases hk : k' = k
    · rw [dictSet, if_pos hk, dictGet, if_pos hk, sumValues_cons, sumValues_cons]
      ring
    · rw [dictContains, if_neg hk] at h
      rw [dictSet, if_neg hk, dictGet, if_neg hk, sumValues_cons, sumValues_cons,
        ih h]
      ring

theorem sumValues_dictSet_new (ledger : Ledger) (k : String) (v : Int)
    (h : dictContains ledger k = false) :
    sumValues (dictSet ledger k v) = sumValues ledger + v := by
  induction ledger with
  | nil => simp [dictSet, sumValues]
  | cons head rest ih =>
    obtain ⟨k', v'⟩ := head
    by_cases hk : k' = k
    · rw [dictContains, if_pos hk] at h
      exact absurd h (by simp)
    · rw [dictContains, if_neg hk] at h
      rw [dictSet, if_neg hk, sumValues_cons, sumValues_cons, ih h]
      ring

/-- A successful `add_transaction_to_ledger` call preserves the sum of the
balances: the debit and the credit cancel. -/
theorem add_transaction_to_ledger_ok_sum (t : Transaction) (led led' : Ledger)
    (h : add_transaction_to_ledger t led = .ok led') :
    sumValues led' = sumValues led := by
  unfold add_transaction_to_ledger at h
  match hs : t.sender with
  | none => rw [hs] at h; exact absurd h (by simp)
  | some s =>
    rw [hs] at h
    by_cases hc : dictContains led s = true
    · simp only [hc, not_true_eq_false, if_false] at h
      by_cases ho : dictGet led s - t.amount < 0
      · rw [if_pos ho] at h; exact absurd h (by simp)
      · rw [if_neg ho] at h
        simp only [Except.ok.injEq] at h
        subst h
        by_cases hr : dictContains led t.recipient = true
        · rw [if_neg (by simp [hr])]
          rw [sumValues_dictSet_mem _ _ _
            ((dictContains_dictSet _ _ _ _).mpr (Or.inl hr))]
          rw [sumValues_dictSet_mem _ _ _ hc]
          ring
        · rw [if_pos (by simp [hr])]
          have hr' : dictContains led t.recipient = false := by
            simpa using hr
          have hc1 : dictContains (dictSet led t.recipient 0) s = true :=
            (dictContains_dictSet _ _ _ _).mpr (Or.inl hc)
          have hr1 : dictContains
              (dictSet (dictSet led t.recipient 0) s
                (dictGet (dictSet led t.recipient 0) s - t.amount))
              t.recipient = true :=
            (dictContains_dictSet _ _ _ _).mpr
              (Or.inl ((dictContains_dictSet _ _ _ _).mpr (Or.inr rfl)))
          rw [sumValues_dictSet_mem _ _ _ hr1]
          rw [sumValues_dictSet_mem _ _ _ hc1]
          rw [sumValues_dictSet_new _ _ _ hr']
          ring
    · simp only [hc] at h
      exact absurd h (by simp)

/-- A successful `add_transaction_to_ledger` call requires a present
(hence non-`None`) sender. -/
theorem add_transaction_to_ledger_ok_sender (t : Transaction) (led led' : Ledger)
    (h : add_transaction_to_ledger t led = .ok led') : t.sender ≠ none := by
  intro hn
  unfold add_transaction_to_ledger at h
  rw [hn] at h
  exact absurd h (by simp)

/-- The replay loop preserves the sum of the balances. -/
theorem ledger_fold_ok_sum : ∀ (l : List Transaction) (led led' : Ledger),
    ledger_fold l led = .ok led' → sumValues led' = sumValues led := by
  intro l
  induction l with
  | nil => intro led led' h; simp only [ledger_fold, Except.ok.injEq] at h; rw [h]
  | cons t rest ih =>
    intro led led' h
    simp only [ledger_fold] at h
    match ha : add_transaction_to_ledger t led with
    | .error e => rw [ha] at h; exact absurd h (by simp)
    | .ok led₁ =>
      rw [ha] at h
      rw [ih led₁ led' h]
      exact add_transaction_to_ledger_ok_sum t led led₁ ha

/-- A replay that succeeds never saw a `None` sender. -/
theorem ledger_fold_ok_no_none_sender : ∀ (l : List Transaction) (led led' : Ledger),
    ledger_fold l led = .ok led' → ∀ t ∈ l, t.sender ≠ none := by
  intro l
  induction l with
  | nil => intro _ _ _ t ht; exact absurd ht (by simp)
  | cons t₀ rest ih =>
    intro led led' h t ht
    simp only [ledger_fold] at h
    match ha : add_transaction_to_ledger t₀ led with
    | .error e => rw [ha] at h; exact absurd h (by simp)
    | .ok led₁ =>
      rw [ha] at h
      rcases List.mem_cons.mp ht with rfl | hmem
      · exact add_transaction_to_ledger_ok_sender t led led₁ ha
      · exact ih led₁ led' h t hmem

/-! Helper lemmas about the proof-of-work search. -/

theorem zeros_length (complexity_level : Nat) :
    (zeros complexity_level).length = complexity_level := by
  simp [zeros, String.length]

theorem take_four_length (s : String) (h : 4 ≤ s.length) :
    (s.take 4).length = 4 := by
  obtain ⟨data⟩ := s
  rw [String.take_eq]
  simp only [String.length_mk] at h ⊢
  simp only [List.length_take]
  omega

/-- When the required prefix `"0" * complexity_level` does not have length
4, no candidate can ever satisfy the `[:4]` comparison (a 4-character
prefix of a digest of length ≥ 4 never equals a string of another length). -/
theorem proof_found_false (H : String → String)
    (hlen : ∀ s, 4 ≤ (H s).length) (complexity_level : Nat)
    (hcl : complexity_level ≠ 4) (block_hash : String) (p : Nat) :
    proof_found H complexity_level block_hash p = false := by
  unfold proof_found
  rw [beq_eq_false_iff_ne]
  intro he
  have := congrArg String.length he
  rw [take_four_length _ (hlen _), zeros_length] at this
  exact hcl this.symm

/-- If `get_proof`'s loop returns, the returned nonce satisfies the loop's
stopping condition. -/
theorem get_proofFuel_sat (H : String → String) (complexity_level : Nat)
    (block_hash : String) : ∀ (fuel start p : Nat),
    get_proofFuel H complexity_level block_hash fuel start = some p →
    proof_found H complexity_level block_hash p = true := by
  intro fuel
  induction fuel with
  | zero => intro start p h; exact absurd h (by simp [get_proofFuel])
  | succ n ih =>
    intro start p h
    rw [get_proofFuel] at h
    by_cases hf : proof_found H complexity_level block_hash start = true
    · rw [if_pos hf] at h
      cases h
      exact hf
    · rw [if_neg hf] at h
      exact ih (start + 1) p h

/-- Whenever `complexity_level ≠ 4`, the `while` loop of `get_proof` never
terminates, at any fuel, from any starting counter. -/
theorem get_proofFuel_none (H : String → String)
    (hlen : ∀ s, 4 ≤ (H s).length) (complexity_level : Nat)
    (hcl : complexity_level ≠ 4) (block_hash : String) :
    ∀ (fuel start : Nat),
    get_proofFuel H complexity_level block_hash fuel start = none := by
  intro fuel
  induction fuel with
  | zero => intro start; rfl
  | succ n ih =>
    intro start
    rw [get_proofFuel, proof_found_false H hlen complexity_level hcl block_hash start]
    simp only [Bool.false_eq_true, if_false]
    exact ih (start + 1)

/-! Inversion lemmas for the three state-changing operations. -/

theorem create_some (H : String → String) (seed_amount : Int)
    (complexity_level timestamp fuel : Nat) (c : Blockchain)
    (h : Blockchain.create H seed_amount complexity_level timestamp fuel = some c) :
    ∃ pf, get_proofFuel H complexity_level
        (H (block_string 0 timestamp [⟨none, "genesis", seed_amount, timestamp⟩]))
        fuel 0 = some pf ∧
      c = ⟨[], seed_amount, complexity_level,
        Block.make H 0 timestamp [⟨none, "genesis", seed_amount, timestamp⟩] pf none⟩ := by
  unfold Blockchain.create create_genesis_block at h
  split at h
  · exact absurd h (by simp)
  · next gb heq =>
    simp only [Option.some.injEq] at h
    split at heq
    · exact absurd heq (by simp)
    · next pf hpf =>
      simp only [Option.some.injEq] at heq
      exact ⟨pf, hpf, by rw [← h, ← heq]⟩

theorem add_transaction_ok (c : Blockchain) (s : Option String) (r : String)
    (a : Int) (ts : Nat) (c' : Blockchain)
    (h : c.add_transaction s r a ts true = (c', .ok ())) :
    (∃ led led', create_ledger c.get_settled_transactions = .ok led ∧
       add_transaction_to_ledger ⟨s, r, a, ts⟩ led = .ok led') ∧
    c' = ⟨c.transactions ++ [⟨s, r, a, ts⟩], c.seed_amount, c.complexity_level,
      c.last_block⟩ := by
  unfold Blockchain.add_transaction at h
  split at h
  · split at h
    · exact absurd h (by simp)
    · exact absurd h (by simp)
    · next hval =>
      simp only [Prod.mk.injEq] at h
      refine ⟨?_, h.1.symm⟩
      unfold validate_transaction at hval
      split at hval
      · exact absurd hval (by simp)
      · next led hled =>
        split at hval
        · exact absurd hval (by simp)
        · next led' hled' => exact ⟨led, led', hled, hled'⟩
  · next hf => exact absurd (by trivial) hf

theorem add_block_ok (H : String → String) (c : Blockchain) (ts fuel : Nat)
    (c' : Blockchain) (h : c.add_block H ts fuel = some (c', .ok ())) :
    c.transactions ≠ [] ∧
    ∃ pf, get_proofFuel H c.complexity_level
        (H (block_string (c.last_block.index + 1) ts c.transactions)) fuel 0 =
          some pf ∧
      c' = ⟨[], c.seed_amount, c.complexity_level,
        Block.make H (c.last_block.index + 1) ts c.transactions pf
          (some c.last_block)⟩ := by
  unfold Blockchain.add_block Blockchain.mine_block at h
  split at h
  · exact absurd h (by simp)
  · next hne =>
    refine ⟨hne, ?_⟩
    split at h
    · exact absurd h (by simp)
    · next nb hnb =>
      split at hnb
      · exact absurd hnb (by simp)
      · next pf hpf =>
        simp only [Option.some.injEq] at hnb
        split at h
        · exact absurd h (by simp)
        · simp only [Option.some.injEq, Prod.mk.injEq] at h
          exact ⟨pf, hpf, by rw [← h.1, ← hnb]⟩

theorem reachable_stateInv (H : String → String) (c : Blockchain)
    (h : Reachable H c) : StateInv c := by
  induction h with
  | create seed_amount complexity_level timestamp fuel c h =>
    obtain ⟨pf, _, rfl⟩ :=
      create_some H seed_amount complexity_level timestamp fuel c h
    exact ⟨GoodChain.genesis timestamp timestamp pf _, by simp⟩
  | stage c s r a ts c' _ hadd ih =>
    obtain ⟨⟨led, led', _, hled'⟩, rfl⟩ := add_transaction_ok c s r a ts c' hadd
    refine ⟨ih.1, ?_⟩
    intro t ht
    rcases List.mem_append.mp ht with hmem | hmem
    · exact ih.2 t hmem
    · rcases List.mem_singleton.mp hmem with rfl
      exact add_transaction_to_ledger_ok_sender _ led led' hled'
  | commit c ts fuel c' _ hadd ih =>
    obtain ⟨hne, pf, _, rfl⟩ := add_block_ok H c ts fuel c' hadd
    refine ⟨?_, by simp⟩
    exact GoodChain.step c.last_block _ ts c.transactions pf _ ih.1 rfl ih.2

/-- A well-shaped history always contains the genesis credit among its
collected transactions. -/
theorem goodChain_exists_genesis (seed : Int) (b : Block)
    (h : GoodChain seed b) :
    ∃ t ∈ collect_transactions b, t.sender = none ∧ t.amount = seed := by
  induction h with
  | genesis ts ts' pf hh =>
    exact ⟨⟨none, "genesis", seed, ts'⟩, by simp [collect_transactions], rfl, rfl⟩
  | step p index ts txs pf hh hp hidx hsend ih =>
    obtain ⟨t, ht, hs⟩ := ih
    exact ⟨t, by simp only [collect_transactions, List.mem_append]; right; exact ht, hs⟩

/-- Unfolding equation of `create_ledger` on a non-empty list. -/
theorem create_ledger_cons (f : Transaction) (rest : List Transaction) :
    create_ledger (f :: rest) =
      if f.recipient ≠ "genesis" ∧ f.sender ≠ none then
        .error "Valid genesis block not found"
      else ledger_fold rest (dictSet [] f.recipient f.amount) := rfl

/-- Sorting does not change membership: a transaction is settled exactly
when some reachable block carries it. -/
theorem mem_settled (c : Blockchain) (t : Transaction) :
    t ∈ c.get_settled_transactions ↔ t ∈ collect_transactions c.last_block := by
  unfold Blockchain.get_settled_transactions
  exact List.mem_insertionSort ts_le

/-- The collected transactions are exactly the transactions of the blocks
reachable from the tail via `previous_block` links. -/
theorem collect_eq_blockList_bind : ∀ b : Block,
    collect_transactions b = (blockList b).flatMap Block.transactions
  | .mk i t txs p prev h => by
    cases prev with
    | none => simp [collect_transactions, blockList, Block.transactions]
    | some previous =>
      simp only [collect_transactions, blockList, List.flatMap_cons,
        Block.transactions, collect_eq_blockList_bind previous]

/-- Block-shape facts holding for every block of a well-shaped history. -/
theorem goodChain_blockList (seed : Int) (root : Block)
    (h : GoodChain seed root) :
    ∀ b ∈ blockList root,
      (b.index = 0 ↔ b.previous_block = none) ∧
      (b.index = 0 → ∃ t, b.transactions = [t] ∧ t.sender = none ∧
        t.recipient = "genesis" ∧ t.amount = seed) ∧
      (∀ p, b.previous_block = some p → b.index = p.index + 1) := by
  induction h with
  | genesis ts ts' pf hh =>
    intro b hb
    simp only [blockList, List.mem_singleton] at hb
    subst hb
    refine ⟨by simp [Block.index, Block.previous_block], ?_, ?_⟩
    · intro _
      exact ⟨⟨none, "genesis", seed, ts'⟩, rfl, rfl, rfl, rfl⟩
    · intro p hp
      exact absurd hp (by simp [Block.previous_block])
  | step p index ts txs pf hh hp hidx hsend ih =>
    intro b hb
    simp only [blockList, List.mem_cons] at hb
    rcases hb with rfl | hb
    · refine ⟨?_, ?_, ?_⟩
      · simp only [Block.index, Block.previous_block, hidx]
        constructor
        · intro h0; exact absurd h0 (by simp)
        · intro hn; exact absurd hn (by simp)
      · intro h0
        rw [Block.index, hidx] at h0
        exact absurd h0 (Nat.succ_ne_zero _)
      · intro q hq
        rw [Block.previous_block] at hq
        cases hq
        rw [Block.index, hidx]
    · exact ih b hb

/-- The chain `demoChain` is reachable: it is `Blockchain(1000, 4)` under
`demoH` with genesis timestamp 1 and one unit of search fuel. -/
theorem demoChain_reachable : Reachable demoH demoChain :=
  Reachable.create 1000 4 1 1 demoChain rfl

/-- The two failure messages of `add_transaction_to_ledger` differ (their
suffixes have different lengths). -/
theorem sender_messages_ne (s : String) :
    ("Sender " ++ s ++ " made a transaction before appearing in the ledger" : String) ≠
      "Sender " ++ s ++ " attempted to overdraw their coins" := by
  intro he
  have hl := congrArg String.length he
  simp only [String.length_append] at hl
  have hs : (" made a transaction before appearing in the ledger" : String).length =
      (" attempted to overdraw their coins" : String).length := by omega
  exact absurd hs (by decide)

/-! Claim theorems. -/

/-- C1: the claim states that for every difficulty ≥ 1 the constructor
terminates and yields a verifying chain.  In the source, both `get_proof`
and `verify_block` compare the 4-character slice `digest[:4]` against
`"0" * complexity_level`; for any `complexity_level ≠ 4` the two strings
have different lengths, so the comparison is unsatisfiable and the
`while` loop of `get_proof` — hence `Blockchain.__init__` — never
terminates, at any fuel.  The hypothesis that every digest has at least 4
characters holds for sha256 hex digests (64 characters). -/
theorem C1_theorem (H : String → String) (hlen : ∀ s, 4 ≤ (H s).length)
    (seed_amount : Int) (complexity_level : Nat) (hcl : complexity_level ≠ 4)
    (timestamp fuel : Nat) :
    Blockchain.create H seed_amount complexity_level timestamp fuel = none := by
  unfold Blockchain.create create_genesis_block
  rw [get_proofFuel_none H hlen complexity_level hcl _ fuel 0]

/-- C1 witness: at difficulty 3 with a 4-character digest function, chain
creation finds no proof within a million iterations. -/
theorem C1_witness :
    Blockchain.create (fun _ => "aaaa") 1000 3 1 1000000 = none :=
  C1_theorem (fun _ => "aaaa")
    (fun _ => show 4 ≤ ("aaaa" : String).length by decide) 1000 3 (by decide) 1
    1000000

/-- C2: the claim states `create_ledger` fails with the missing-genesis
error whenever the first transaction is not the genesis credit.  The
source's check is `recipient is not 'genesis' AND sender is not None`, so
a first transaction that is not the genesis credit but satisfies one of
the two conjuncts — here `sender = None` with recipient `"bob"` — passes
the check and proceeds to initialize the balances with `bob ↦ 7`. -/
theorem C2_theorem :
    create_ledger [⟨none, "bob", 7, 5⟩] = .ok [("bob", 7)] := rfl

/-- C3: the claim states that for every difficulty ≥ 1 the search returns
the smallest nonce whose digest has at least `difficulty` leading zero
characters.  At difficulty 1 the source compares `digest[:4]` (4
characters) with `"0"` (1 character), which never succeeds, so the search
returns nothing at any fuel — even though nonces whose digest starts with
one `'0'` exist. -/
theorem C3_theorem (H : String → String) (hlen : ∀ s, 4 ≤ (H s).length)
    (block_hash : String) (fuel start : Nat) :
    get_proofFuel H 1 block_hash fuel start = none :=
  get_proofFuel_none H hlen 1 (by decide) block_hash fuel start

/-- C3 witness: the difficulty-1 search finds nothing in a million
iterations even when every digest starts with a zero character. -/
theorem C3_witness :
    get_proofFuel (fun _ => "0aaa") 1 "abc" 1000000 0 = none :=
  C3_theorem (fun _ => "0aaa")
    (fun _ => show 4 ≤ ("0aaa" : String).length by decide) "abc" 1000000 0

/-- C6: `get_settled_transactions` returns a permutation of the
transactions of all blocks reachable from the tail via `previous_block`
links, sorted globally by timestamp in ascending order. -/
theorem C6_theorem (c : Blockchain) :
    c.get_settled_transactions.Perm
      ((blockList c.last_block).flatMap Block.transactions) ∧
    List.Sorted ts_le c.get_settled_transactions := by
  constructor
  · rw [← collect_eq_blockList_bind]
    exact List.perm_insertionSort ts_le _
  · exact List.sorted_insertionSort ts_le _

/-- C10: a block's stored hash is a function of its index, timestamp and
transactions only — two blocks agreeing on those three fields receive the
same stored hash regardless of their proof and previous-block fields —
and `verify_block` reads only the stored hash and proof, so neither binds
a block to its predecessor. -/
theorem C10_theorem (H : String → String) (complexity_level : Nat)
    (i ts : Nat) (txs : List Transaction) (pf₁ pf₂ : Nat)
    (prev₁ prev₂ : Option Block) (h₁ h₂ hsh : String)
    (i₁ ts₁ i₂ ts₂ : Nat) (txs₁ txs₂ : List Transaction) (pf : Nat) :
    (Block.make H i ts txs pf₁ prev₁).hash = (Block.make H i ts txs pf₂ prev₂).hash ∧
    Block.get_hash H (.mk i ts txs pf₁ prev₁ h₁) =
      Block.get_hash H (.mk i ts txs pf₂ prev₂ h₂) ∧
    verify_block H complexity_level (.mk i₁ ts₁ txs₁ pf prev₁ hsh) =
      verify_block H complexity_level (.mk i₂ ts₂ txs₂ pf prev₂ hsh) :=
  ⟨rfl, rfl, rfl⟩

/-- C7: `add_transaction` and `add_block` are atomic.  A failed stage
returns the caller's state unchanged; a failed commit (empty queue or
verification failure) returns the tail and the pending queue unchanged;
a successful commit clears the pending queue, keeps the configuration,
and reassigns the tail to exactly the freshly mined block. -/
theorem C7_theorem (H : String → String) (c : Blockchain) :
    (∀ s r a ts c' e,
      c.add_transaction s r a ts true = (c', .error e) → c' = c) ∧
    (∀ ts fuel c' e,
      c.add_block H ts fuel = some (c', .error e) → c' = c) ∧
    (∀ ts fuel c',
      c.add_block H ts fuel = some (c', .ok ()) →
        c'.transactions = [] ∧ c'.seed_amount = c.seed_amount ∧
        c'.complexity_level = c.complexity_level ∧
        c.mine_block H ts fuel = some c'.last_block) := by
  refine ⟨?_, ?_, ?_⟩
  · intro s r a ts c' e h
    unfold Blockchain.add_transaction at h
    split at h
    · split at h
      · simp only [Prod.mk.injEq] at h
        exact h.1.symm
      · simp only [Prod.mk.injEq] at h
        exact h.1.symm
      · exact absurd h (by simp)
    · next hf => exact absurd (by trivial) hf
  · intro ts fuel c' e h
    unfold Blockchain.add_block at h
    split at h
    · simp only [Option.some.injEq, Prod.mk.injEq] at h
      exact h.1.symm
    · split at h
      · exact absurd h (by simp)
      · split at h
        · simp only [Option.some.injEq, Prod.mk.injEq] at h
          exact h.1.symm
        · exact absurd h (by simp)
  · intro ts fuel c' h
    obtain ⟨hne, pf, hpf, rfl⟩ := add_block_ok H c ts fuel c' h
    refine ⟨rfl, rfl, rfl, ?_⟩
    unfold Blockchain.mine_block
    rw [hpf]

/-- C7 witness: a successful commit from the demonstration state with one
staged transaction clears the queue, preserves the configuration, and
installs the mined block as the new tail. -/
theorem C7_witness :
    demoChainMined1.transactions = [] ∧
    demoChainMined1.seed_amount = demoChainStaged1.seed_amount ∧
    demoChainMined1.complexity_level = demoChainStaged1.complexity_level ∧
    demoChainStaged1.mine_block demoH 4 1 = some demoChainMined1.last_block :=
  (C7_theorem demoH demoChainStaged1).2.2 4 1 demoChainMined1 rfl

/-- C8: whenever the pending queue is non-empty and `add_block` returns
(i.e. the proof search inside `mine_block` terminated with a nonce), the
freshly mined block passes `verify_block` — the mined block's stored hash
is the digest of the same contents string the search was seeded with, and
the returned nonce satisfies the search's stopping condition, which is
syntactically the verification condition — so the `"Block failed
verification"` branch is unreachable and the result is success. -/
theorem C8_theorem (H : String → String) (c : Blockchain) (ts fuel : Nat)
    (c' : Blockchain) (r : Except String Unit)
    (hne : c.transactions ≠ []) (h : c.add_block H ts fuel = some (c', r)) :
    r = .ok () := by
  unfold Blockchain.add_block at h
  rw [if_neg hne] at h
  split at h
  · exact absurd h (by simp)
  · next nb hnb =>
    have hv : verify_block H c.complexity_level nb = true := by
      unfold Blockchain.mine_block at hnb
      split at hnb
      · exact absurd hnb (by simp)
      · next pf hpf =>
        simp only [Option.some.injEq] at hnb
        subst hnb
        have hsat := get_proofFuel_sat H c.complexity_level _ fuel 0 pf hpf
        unfold proof_found at hsat
        unfold verify_block
        simpa [Block.make, Block.hash, Block.proof] using hsat
    rw [if_neg (by simp [hv])] at h
    simp only [Option.some.injEq, Prod.mk.injEq] at h
    exact h.2.symm

/-- C8 witness: committing the demonstration state with one staged
transaction returns success. -/
theorem C8_witness :
    demoChainStaged1.transactions ≠ [] ∧ (Except.ok () : Except String Unit) = .ok () :=
  ⟨by simp [demoChainStaged1],
   C8_theorem demoH demoChainStaged1 4 1 demoChainMined1 (.ok ())
     (by simp [demoChainStaged1]) rfl⟩

/-- C9: in every reachable chain state, a reachable block has index 0
exactly when it has no predecessor, the index-0 block carries exactly one
transaction — the credit of `seed_amount` to the seed account `"genesis"`
with no sender — and every other reachable block's index is its
predecessor's index plus one. -/
theorem C9_theorem (H : String → String) (c : Blockchain)
    (hr : Reachable H c) :
    ∀ b ∈ blockList c.last_block,
      (b.index = 0 ↔ b.previous_block = none) ∧
      (b.index = 0 → ∃ t, b.transactions = [t] ∧ t.sender = none ∧
        t.recipient = "genesis" ∧ t.amount = c.seed_amount) ∧
      (∀ p, b.previous_block = some p → b.index = p.index + 1) :=
  goodChain_blockList c.seed_amount c.last_block (reachable_stateInv H c hr).1

/-- C9 witness: the genesis block of the reachable demonstration chain has
index 0 and no predecessor. -/
theorem C9_witness :
    demoGenesisBlock.index = 0 ↔ demoGenesisBlock.previous_block = none :=
  (C9_theorem demoH demoChain demoChain_reachable demoGenesisBlock
    (by simp [demoChain, demoGenesisBlock, blockList])).1

/-- C4 counterexample: a chain reached by two successful stages and one
successful commit on which the ledger replay of the settled transactions
fails entirely (so no balance mapping summing to `seed_amount` exists).
Each stage validated its transaction against the settled ledger only —
pending transactions are not part of the snapshot — so `genesis → adam:
800` and `genesis → eve: 800` were both admitted against a balance of
1000, and the replay of the committed chain aborts with an overdraw
error. -/
theorem C4_counterexample :
    Reachable demoH demoChainDouble ∧
    create_ledger demoChainDouble.get_settled_transactions =
      .error "Sender genesis attempted to overdraw their coins" :=
  ⟨Reachable.commit demoChainStaged2 4 1 demoChainDouble
    (Reachable.stage demoChainStaged1 (some "genesis") "eve" 800 3
      demoChainStaged2
      (Reachable.stage demoChain (some "genesis") "adam" 800 2
        demoChainStaged1 demoChain_reachable rfl) rfl)
    rfl, rfl⟩

/-- C4 (amended): for every reachable chain, whenever the ledger replay of
its settled transactions succeeds, the resulting balances sum exactly to
`seed_amount`; and every individual successful ledger step leaves the sum
of the balances unchanged.  (The replay itself can fail on reachable
chains, as staging validates only against the settled ledger, so jointly
overdrawing transactions can be committed together.) -/
theorem C4_theorem (H : String → String) (c : Blockchain)
    (hr : Reachable H c) :
    (∀ l, create_ledger c.get_settled_transactions = .ok l →
      sumValues l = c.seed_amount) ∧
    (∀ t led led', add_transaction_to_ledger t led = .ok led' →
      sumValues led' = sumValues led) := by
  refine ⟨?_, fun t led led' h => add_transaction_to_ledger_ok_sum t led led' h⟩
  intro l hl
  have hinv := reachable_stateInv H c hr
  obtain ⟨t₀, ht₀, hs₀, ha₀⟩ := goodChain_exists_genesis _ _ hinv.1
  have ht₀s : t₀ ∈ c.get_settled_transactions := (mem_settled c t₀).mpr ht₀
  cases hset : c.get_settled_transactions with
  | nil => rw [hset] at hl; exact absurd hl (by simp [create_ledger])
  | cons f rest =>
    rw [hset] at hl ht₀s
    rw [create_ledger_cons] at hl
    split at hl
    · exact absurd hl (by simp)
    · have hsum := ledger_fold_ok_sum _ _ _ hl
      rcases List.mem_cons.mp ht₀s with rfl | hmem
      · rw [hsum]
        simp only [dictSet, sumValues, List.map_cons, List.map_nil,
          List.sum_cons, List.sum_nil, add_zero]
        exact ha₀
      · exact absurd hs₀ (ledger_fold_ok_no_none_sender rest _ _ hl t₀ hmem)

/-- C4 witness: the freshly created demonstration chain replays to the
balance mapping crediting the whole seed to `"genesis"`, which sums to
its `seed_amount`. -/
theorem C4_witness :
    sumValues [("genesis", (1000 : Int))] = demoChain.seed_amount :=
  (C4_theorem demoH demoChain demoChain_reachable).1 [("genesis", 1000)] rfl

/-- Value-level description of a successful ledger step: the sender is
debited, the recipient is credited (its entry created at 0 when absent),
every other balance is untouched, and the key set grows by at most the
recipient. -/
theorem add_transaction_to_ledger_ok_spec (t : Transaction) (led : Ledger)
    (s : String) (hs : t.sender = some s) (hc : dictContains led s = true)
    (ho : ¬ dictGet led s - t.amount < 0) :
    ∃ led', add_transaction_to_ledger t led = .ok led' ∧
      (∀ k, dictContains led' k = true ↔
        (dictContains led k = true ∨ k = t.recipient)) ∧
      (∀ k, dictGet led' k =
        if k = t.recipient then
          (if t.recipient = s then dictGet led s - t.amount
           else if dictContains led t.recipient = true then dictGet led t.recipient
           else 0) + t.amount
        else if k = s then dictGet led s - t.amount
        else dictGet led k) := by
  by_cases hrc : dictContains led t.recipient = true
  · refine ⟨dictSet (dictSet led s (dictGet led s - t.amount)) t.recipient
      (dictGet (dictSet led s (dictGet led s - t.amount)) t.recipient + t.amount),
      ?_, ?_, ?_⟩
    · simp [add_transaction_to_ledger, hs, hc, ho, hrc]
    · intro k
      rw [dictContains_dictSet, dictContains_dictSet]
      constructor
      · rintro ((hk | rfl) | hk)
        · exact Or.inl hk
        · exact Or.inl hc
        · exact Or.inr hk
      · rintro (hk | rfl)
        · exact Or.inl (Or.inl hk)
        · exact Or.inr rfl
    · intro k
      by_cases hkr : k = t.recipient
      · subst hkr
        rw [if_pos rfl, dictGet_dictSet_self]
        by_cases hks : t.recipient = s
        · rw [if_pos hks, hks, dictGet_dictSet_self]
        · rw [if_neg hks, dictGet_dictSet_ne led s t.recipient _ hks, if_pos hrc]
      · rw [if_neg hkr, dictGet_dictSet_ne _ t.recipient k _ hkr]
        by_cases hks : k = s
        · subst hks
          rw [if_pos rfl, dictGet_dictSet_self]
        · rw [if_neg hks, dictGet_dictSet_ne led s k _ hks]
  · have hsr : s ≠ t.recipient := fun h => hrc (h ▸ hc)
    refine ⟨dictSet
      (dictSet (dictSet led t.recipient 0) s
        (dictGet (dictSet led t.recipient 0) s - t.amount))
      t.recipient
      (dictGet
        (dictSet (dictSet led t.recipient 0) s
          (dictGet (dictSet led t.recipient 0) s - t.amount))
        t.recipient + t.amount),
      ?_, ?_, ?_⟩
    · simp [add_transaction_to_ledger, hs, hc, ho, hrc]
    · intro k
      rw [dictContains_dictSet, dictContains_dictSet, dictContains_dictSet]
      constructor
      · rintro (((hk | hk) | rfl) | hk)
        · exact Or.inl hk
        · exact Or.inr hk
        · exact Or.inl hc
        · exact Or.inr hk
      · rintro (hk | rfl)
        · exact Or.inl (Or.inl (Or.inl hk))
        · exact Or.inr rfl
    · intro k
      by_cases hkr : k = t.recipient
      · subst hkr
        rw [if_pos rfl, dictGet_dictSet_self,
          dictGet_dictSet_ne _ s t.recipient _ (fun h => hsr h.symm),
          dictGet_dictSet_self, if_neg (fun h => hsr h.symm), if_neg hrc]
      · rw [if_neg hkr, dictGet_dictSet_ne _ t.recipient k _ hkr]
        by_cases hks : k = s
        · subst hks
          rw [if_pos rfl, dictGet_dictSet_self,
            dictGet_dictSet_ne led t.recipient k _ hsr]
        · rw [if_neg hks, dictGet_dictSet_ne _ s k _ hks,
            dictGet_dictSet_ne led t.recipient k _ hkr]

/-- C5: `add_transaction_to_ledger` fails with the unknown-sender error
exactly when the sender has no ledger entry (a `None` sender never has
one), fails with the overdraw error exactly when the sender is present
but its balance minus the amount is negative, and otherwise succeeds,
debiting the sender by the amount and crediting the recipient by the
amount, creating the recipient's entry at 0 when absent and leaving every
other balance unchanged. -/
theorem C5_theorem (t : Transaction) (led : Ledger) :
    (t.sender = none →
      add_transaction_to_ledger t led =
        .error "Sender None made a transaction before appearing in the ledger") ∧
    (∀ s, t.sender = some s →
      ((add_transaction_to_ledger t led =
          .error ("Sender " ++ s ++
            " made a transaction before appearing in the ledger")) ↔
        dictContains led s = false) ∧
      ((add_transaction_to_ledger t led =
          .error ("Sender " ++ s ++ " attempted to overdraw their coins")) ↔
        (dictContains led s = true ∧ dictGet led s - t.amount < 0)) ∧
      (dictContains led s = true → ¬ dictGet led s - t.amount < 0 →
        ∃ led', add_transaction_to_ledger t led = .ok led' ∧
          (∀ k, dictContains led' k = true ↔
            (dictContains led k = true ∨ k = t.recipient)) ∧
          (∀ k, dictGet led' k =
            if k = t.recipient then
              (if t.recipient = s then dictGet led s - t.amount
               else if dictContains led t.recipient = true then
                 dictGet led t.recipient
               else 0) + t.amount
            else if k = s then dictGet led s - t.amount
            else dictGet led k))) := by
  constructor
  · intro hsn
    unfold add_transaction_to_ledger
    rw [hsn]
    rfl
  · intro s hs
    by_cases hc : dictContains led s = true
    · by_cases ho : dictGet led s - t.amount < 0
      · have hA : add_transaction_to_ledger t led =
            .error ("Sender " ++ s ++ " attempted to overdraw their coins") := by
          simp only [add_transaction_to_ledger, hs]
          rw [if_neg (by simp [hc]), if_pos ho]
        refine ⟨?_, ?_, ?_⟩
        · rw [hA]
          simp only [Except.error.injEq, hc]
          constructor
          · intro h
            exact absurd h.symm (sender_messages_ne s)
          · intro h
            exact absurd h (by simp)
        · rw [hA]
          simp [hc, ho]
        · intro _ ho'
          exact absurd ho ho'
      · obtain ⟨led', hok, hcont, hget⟩ :=
          add_transaction_to_ledger_ok_spec t led s hs hc ho
        refine ⟨?_, ?_, ?_⟩
        · rw [hok]
          simp only [hc]
          constructor
          · intro h
            exact absurd h (by simp)
          · intro h
            exact absurd h (by simp)
        · rw [hok]
          simp [ho]
        · intro _ _
          exact ⟨led', hok, hcont, hget⟩
    · have hA : add_transaction_to_ledger t led =
          .error ("Sender " ++ s ++
            " made a transaction before appearing in the ledger") := by
        simp only [add_transaction_to_ledger, hs]
        rw [if_pos (by simp [hc])]
      refine ⟨?_, ?_, ?_⟩
      · rw [hA]
        simp only [Bool.not_eq_true] at hc
        simp [hc]
      · rw [hA]
        simp only [Except.error.injEq, hc]
        constructor
        · intro h
          exact absurd h (sender_messages_ne s)
        · intro h
          exact absurd h.1 (by simp)
      · intro hc' _
        exact absurd hc' hc

/-- C5 witness: a concrete successful step — `alice` pays `bob` 5 out of
10 — debits `alice` to 5 and credits `bob` (created at 0) to 5. -/
theorem C5_witness :
    ∃ led', add_transaction_to_ledger ⟨some "alice", "bob", 5, 0⟩
        [("alice", 10)] = .ok led' ∧
      dictGet led' "alice" = 5 ∧ dictGet led' "bob" = 5 := by
  obtain ⟨led', hok, hcont, hget⟩ :=
    ((C5_theorem ⟨some "alice", "bob", 5, 0⟩ [("alice", 10)]).2 "alice"
      rfl).2.2 (by decide) (by decide)
  have hled : led' = [("alice", 5), ("bob", 5)] := by
    rw [show add_transaction_to_ledger ⟨some "alice", "bob", 5, 0⟩
        [("alice", 10)] = .ok [("alice", 5), ("bob", 5)] from rfl] at hok
    exact (Except.ok.inj hok).symm
  subst hled
  exact ⟨[("alice", 5), ("bob", 5)], hok, by decide, by decide⟩

end Dumbcoin
